import Mathlib

/-!
Verification of the content-addressed document pipeline of the hsa-dossier
repository.  The Python sources are shallowly embedded: pure functions become
Lean functions, the Azure table becomes an explicit list of entities threaded
through the operations, external services (SHA-256, the PDF chunker, the
tokenizer, the LLM refinement call) become function parameters, and fallible
code returns `Option` / `Except`.
-/

namespace HsaDossier

/-! ## Identity registry (src/utils/table.py, src/main.py)

An Azure table entity as written by `AzureTableClient.insert_data`; the table
itself is modelled as the list of its entities. -/

structure Entity where
  partitionKey : String
  rowKey : String
  project_name : String
  hashed_doc_name : String
  doc_name : String
  description : String
deriving DecidableEq, Repr

abbrev Table := List Entity

/-- Embeds `Dossier.hash_document_name` (src/main.py): SHA-256 hex digest of the name,
truncated to 8 characters (Python slicing `[:8]`, modelled character-wise on
the underlying character list).  The digest itself is computed by Python's
standard library, external to this repository, so it is passed in as a
function. -/
def hash_document_name (sha256hex : String → String) (doc_name : String) : String :=
  ⟨(sha256hex doc_name).data.take 8⟩

/-- Embeds `AzureTableClient.retrieve_by_hashed_doc_name` (src/utils/table.py):
filter query `PartitionKey eq project_name and RowKey eq hashed_doc_name`. -/
def retrieve_by_hashed_doc_name (t : Table) (project_name hashed_doc_name : String) :
    List Entity :=
  t.filter (fun e => e.partitionKey == project_name && e.rowKey == hashed_doc_name)

/-- Embeds `AzureTableClient.insert_entity` (src/utils/table.py): `create_entity`
fails when an entity with the same (PartitionKey, RowKey) already exists, but
the failure is caught and logged, so the table is simply left unchanged. -/
def insert_entity (t : Table) (e : Entity) : Table :=
  if t.any (fun x => x.partitionKey == e.partitionKey && x.rowKey == e.rowKey) then t
  else t ++ [e]

/-- Embeds `AzureTableClient.insert_data` (src/utils/table.py). -/
def insert_data (t : Table) (project_name hashed_doc_name doc_name : String) : Table :=
  insert_entity t
    { partitionKey := project_name
      rowKey := hashed_doc_name
      project_name := project_name
      hashed_doc_name := hashed_doc_name
      doc_name := doc_name
      description := "This is a document mapper for hashed documents" }

/-- Embeds `Dossier.insert_data_with_check` (src/main.py): retrieve first, insert only
when no record with that hash exists, otherwise log and skip. -/
def insert_data_with_check (t : Table) (project_name hashed_doc_name doc_name : String) :
    Table :=
  if (retrieve_by_hashed_doc_name t project_name hashed_doc_name).isEmpty then
    insert_data t project_name hashed_doc_name doc_name
  else t

/-- The registry `put` operation as performed by `Dossier.workflow_setup`:
hash the normalized name, insert with existence check, and use the hash as the
document's stable id. -/
def put (sha256hex : String → String) (t : Table) (project_name doc_name : String) :
    Table × String :=
  let h := hash_document_name sha256hex doc_name
  (insert_data_with_check t project_name h doc_name, h)

/-- The registry `get_by_id` operation: retrieve by the hashed document name
within the project partition (`retrieve_by_hashed_doc_name`) and read the
stored `doc_name` of the first returned entity. -/
def get_by_id (t : Table) (project_name stable_id : String) : Option String :=
  (retrieve_by_hashed_doc_name t project_name stable_id).head?.map Entity.doc_name

/-! Helper lemmas for the registry theorems. -/

theorem retrieve_after_fresh_put (sha256hex : String → String) (t : Table) (p n : String)
    (hfresh : retrieve_by_hashed_doc_name t p (hash_document_name sha256hex n) = []) :
    retrieve_by_hashed_doc_name (put sha256hex t p n).1 p (hash_document_name sha256hex n) =
      [{ partitionKey := p
         rowKey := hash_document_name sha256hex n
         project_name := p
         hashed_doc_name := hash_document_name sha256hex n
         doc_name := n
         description := "This is a document mapper for hashed documents" }] := by
  have hfresh' : t.filter
      (fun e => e.partitionKey == p && e.rowKey == hash_document_name sha256hex n) = [] := hfresh
  have hany : (t.any
      (fun x => x.partitionKey == p && x.rowKey == hash_document_name sha256hex n)) = false :=
    List.any_eq_false.mpr (fun x hx => List.filter_eq_nil_iff.mp hfresh' x hx)
  show retrieve_by_hashed_doc_name (insert_data_with_check t p
      (hash_document_name sha256hex n) n) p (hash_document_name sha256hex n) = _
  rw [insert_data_with_check, hfresh]
  rw [if_pos (by simp), insert_data, insert_entity, if_neg (by simp [hany])]
  rw [retrieve_by_hashed_doc_name, List.filter_append, hfresh', List.nil_append]
  simp

theorem put_fixed_of_present (sha256hex : String → String) (t : Table) (p n : String)
    (h : (retrieve_by_hashed_doc_name t p (hash_document_name sha256hex n)).isEmpty = false) :
    (put sha256hex t p n).1 = t := by
  simp [put, insert_data_with_check, h]

/-- C1: Registry put is idempotent.  For every project `p` and canonical name
`n`, starting from a table with no record for the hashed name, one `put`
creates exactly one registry record, every further repetition of the same
`put` leaves the table unchanged (the duplicate-insert attempt is skipped, and
even a raced duplicate insert is swallowed by `insert_entity`, so no call can
raise), and every call returns the same stable id, namely the truncated hash
of the name. -/
theorem registry_put_idempotent (sha256hex : String → String) (t : Table) (p n : String)
    (hfresh : retrieve_by_hashed_doc_name t p (hash_document_name sha256hex n) = []) :
    (retrieve_by_hashed_doc_name (put sha256hex t p n).1 p
        (hash_document_name sha256hex n)).length = 1 ∧
    (∀ k : Nat, (fun s => (put sha256hex s p n).1)^[k] (put sha256hex t p n).1 =
        (put sha256hex t p n).1) ∧
    (∀ s : Table, (put sha256hex s p n).2 = hash_document_name sha256hex n) := by
  have hret := retrieve_after_fresh_put sha256hex t p n hfresh
  refine ⟨by rw [hret]; rfl, ?_, fun s => rfl⟩
  have hfix : (put sha256hex (put sha256hex t p n).1 p n).1 = (put sha256hex t p n).1 := by
    apply put_fixed_of_present
    rw [hret]
    rfl
  intro k
  induction k with
  | zero => rfl
  | succ m ih => rw [Function.iterate_succ_apply, hfix, ih]

/-- Witness for `registry_put_idempotent` at a concrete input. -/
theorem registry_put_idempotent_witness :
    retrieve_by_hashed_doc_name [] "acme" (hash_document_name (fun s => s) "annex_a") = [] ∧
    ((retrieve_by_hashed_doc_name (put (fun s => s) [] "acme" "annex_a").1 "acme"
        (hash_document_name (fun s => s) "annex_a")).length = 1 ∧
      (∀ k : Nat, (fun s => (put (fun s => s) s "acme" "annex_a").1)^[k]
          (put (fun s => s) [] "acme" "annex_a").1 =
          (put (fun s => s) [] "acme" "annex_a").1) ∧
      (∀ s : Table, (put (fun s => s) s "acme" "annex_a").2 =
          hash_document_name (fun s => s) "annex_a")) :=
  ⟨rfl, registry_put_idempotent (fun s => s) [] "acme" "annex_a" rfl⟩

/-- C2: Registry round-trip.  For every project `p` and document name `n`,
if the table holds no prior record for the hashed name, then after
`put p n` has stored the record, `get_by_id p (put p n).2` (retrieve by the
hashed document name within partition `p`, read the stored `doc_name`)
returns exactly `n`. -/
theorem registry_round_trip (sha256hex : String → String) (t : Table) (p n : String)
    (hfresh : retrieve_by_hashed_doc_name t p (hash_document_name sha256hex n) = []) :
    get_by_id (put sha256hex t p n).1 p (put sha256hex t p n).2 = some n := by
  have hret := retrieve_after_fresh_put sha256hex t p n hfresh
  have h2 : (put sha256hex t p n).2 = hash_document_name sha256hex n := rfl
  rw [get_by_id, h2, hret]
  rfl

/-- Witness for `registry_round_trip` at a concrete input. -/
theorem registry_round_trip_witness :
    retrieve_by_hashed_doc_name [] "acme" (hash_document_name (fun s => s) "annex_a") = [] ∧
    get_by_id (put (fun s => s) [] "acme" "annex_a").1 "acme"
      (put (fun s => s) [] "acme" "annex_a").2 = some "annex_a" :=
  ⟨rfl, registry_round_trip (fun s => s) [] "acme" "annex_a" rfl⟩

/-! ## Chunk configuration optimizer (src/utils/text_processing/chunk_analyser.py)

The external `partition_pdf` elements and the `unstructured` chunker are
modelled by a function `chunk_by_title` from a candidate maximum-chunk-size to
the chunks produced at that size with `combine_text_under_n_chars = size` and
`overlap = size // 2` (the elements are fixed inside the function).  Python
float arithmetic is modelled exactly over `ℚ`. -/

structure ChunkSettings where
  max_characters : Nat
  combine_under_chars : Nat
  overlap : Nat
deriving DecidableEq, Repr

structure ChunkStats where
  num_chunks : Nat
  avg_length : ℚ
  median_length : ℚ
  max_length : Nat
  min_length : Nat
  length_ratio : ℚ
deriving DecidableEq, Repr

def insertSorted (x : Nat) : List Nat → List Nat
  | [] => [x]
  | y :: ys => if x ≤ y then x :: y :: ys else y :: insertSorted x ys

def sortNat : List Nat → List Nat
  | [] => []
  | x :: xs => insertSorted x (sortNat xs)

/-- Python `statistics.median` on a nonempty list of integers. -/
def medianOf (l : List Nat) : ℚ :=
  let s := sortNat l
  let m := s.length
  if m % 2 = 1 then ((s.getD (m / 2) 0 : Nat) : ℚ)
  else (((s.getD (m / 2 - 1) 0 : Nat) : ℚ) + ((s.getD (m / 2) 0 : Nat) : ℚ)) / 2

/-- Python `statistics.mean` on a nonempty list of integers. -/
def meanOf (l : List Nat) : ℚ := (l.sum : ℚ) / (l.length : ℚ)

def maxOf (l : List Nat) : Nat := l.foldl Nat.max 0

def minOf : List Nat → Nat
  | [] => 0
  | x :: xs => xs.foldl Nat.min x

/-- The per-candidate statistics record built inside
`ChunkAnalyser._test_chunk_configs`.  Python raises a StatisticsError on
`mean([])` when a candidate yields zero chunks and a ZeroDivisionError on
`min(...)/max(...)` when every chunk is empty; both error paths are `none`. -/
def computeStats (chunk_lengths : List Nat) : Option ChunkStats :=
  if chunk_lengths.isEmpty then none
  else if maxOf chunk_lengths = 0 then none
  else some
    { num_chunks := chunk_lengths.length
      avg_length := meanOf chunk_lengths
      median_length := medianOf chunk_lengths
      max_length := maxOf chunk_lengths
      min_length := minOf chunk_lengths
      length_ratio := (minOf chunk_lengths : ℚ) / (maxOf chunk_lengths : ℚ) }

/-- Embeds `ChunkAnalyser._test_chunk_configs`: one statistics record per candidate,
keyed by the candidate size; an exception for any candidate aborts the whole
loop, so the result is `none`. -/
def _test_chunk_configs (chunk_by_title : Nat → List String) :
    List Nat → Option (List (Nat × ChunkStats))
  | [] => some []
  | max_chars :: rest =>
    match computeStats ((chunk_by_title max_chars).map String.length) with
    | none => none
    | some stats =>
      match _test_chunk_configs chunk_by_title rest with
      | none => none
      | some results => some ((max_chars, stats) :: results)

/-- Embeds `ChunkAnalyser._score_config`, parametrised by the analyser's constructor
arguments (defaults: `target_min_chunk = 2000`, `ideal_num_chunks = 8`,
weights `0.3 / 0.4 / 0.3`). -/
def _score_config (target_min_chunk ideal_num_chunks : Nat) (w_min w_num w_cons : ℚ)
    (stats : ChunkStats) : ℚ :=
  let min_chunk_score : ℚ := min 1 ((stats.min_length : ℚ) / (target_min_chunk : ℚ))
  let num_chunks_score : ℚ :=
    1 / (1 + (((stats.num_chunks : ℤ) - (ideal_num_chunks : ℤ)).natAbs : ℚ))
  let consistency_score : ℚ := stats.length_ratio
  w_min * min_chunk_score + w_num * num_chunks_score + w_cons * consistency_score

/-- Python `max(..., key=lambda x: x[1])` over a nonempty sequence: the
earliest entry with maximal second component wins. -/
def pyMaxBySnd (x : Nat × ℚ) (xs : List (Nat × ℚ)) : Nat × ℚ :=
  xs.foldl (fun acc y => if y.2 > acc.2 then y else acc) x

/-- Embeds `ChunkAnalyser._get_best_config`; `max` over an empty dict raises, which
is `none`. -/
def _get_best_config (target ideal : Nat) (w1 w2 w3 : ℚ)
    (results : List (Nat × ChunkStats)) : Option Nat :=
  match results.map (fun pr => (pr.1, _score_config target ideal w1 w2 w3 pr.2)) with
  | [] => none
  | x :: xs => some (pyMaxBySnd x xs).1

/-- Embeds `ChunkAnalyser.analyse_chunks` after the external `partition_pdf` call. -/
def analyse_chunks (target ideal : Nat) (w1 w2 w3 : ℚ)
    (chunk_by_title : Nat → List String) (max_chars_options : List Nat) :
    Option ChunkSettings :=
  match _test_chunk_configs chunk_by_title max_chars_options with
  | none => none
  | some results =>
    match _get_best_config target ideal w1 w2 w3 results with
    | none => none
    | some best_config =>
      some { max_characters := best_config
             combine_under_chars := best_config
             overlap := best_config / 2 }

/-- The scoring formula exactly as the specification words it, at the default
parameters: Score(C) = 0.3·min(1, min_length/2000) + 0.4·(1/(1+|count − 8|)) +
0.3·consistency_ratio with consistency_ratio = min_length/max_length. -/
def specScore (stats : ChunkStats) : ℚ :=
  (3/10) * min 1 ((stats.min_length : ℚ) / 2000) +
  (4/10) * (1 / (1 + (((stats.num_chunks : ℤ) - 8).natAbs : ℚ))) +
  (3/10) * ((stats.min_length : ℚ) / (stats.max_length : ℚ))

/-- The statistics record a candidate receives (only meaningful when
`computeStats` succeeds on it). -/
def statsOf (chunk_by_title : Nat → List String) (c : Nat) : ChunkStats :=
  (computeStats ((chunk_by_title c).map String.length)).getD
    { num_chunks := 0, avg_length := 0, median_length := 0, max_length := 0,
      min_length := 0, length_ratio := 0 }

theorem computeStats_ratio {L : List Nat} {s : ChunkStats} (h : computeStats L = some s) :
    s.length_ratio = (s.min_length : ℚ) / (s.max_length : ℚ) := by
  rw [computeStats] at h
  by_cases h1 : L.isEmpty
  · rw [if_pos h1] at h; exact absurd h (by simp)
  · rw [if_neg h1] at h
    by_cases h2 : maxOf L = 0
    · rw [if_pos h2] at h; exact absurd h (by simp)
    · rw [if_neg h2] at h
      cases h
      rfl

theorem score_config_eq_specScore (s : ChunkStats)
    (hr : s.length_ratio = (s.min_length : ℚ) / (s.max_length : ℚ)) :
    _score_config 2000 8 (3/10) (4/10) (3/10) s = specScore s := by
  rw [_score_config, specScore, hr]
  norm_num

theorem pyMaxBySnd_cons (x y : Nat × ℚ) (ys : List (Nat × ℚ)) :
    pyMaxBySnd x (y :: ys) = pyMaxBySnd (if y.2 > x.2 then y else x) ys := rfl

theorem pyMaxBySnd_mem (x : Nat × ℚ) (xs : List (Nat × ℚ)) :
    pyMaxBySnd x xs = x ∨ pyMaxBySnd x xs ∈ xs := by
  induction xs generalizing x with
  | nil => left; rfl
  | cons y ys ih =>
    rw [pyMaxBySnd_cons]
    by_cases hc : y.2 > x.2
    · rw [if_pos hc]
      rcases ih y with h | h
      · right; rw [h]; exact List.mem_cons_self _ _
      · right; exact List.mem_cons_of_mem _ h
    · rw [if_neg hc]
      rcases ih x with h | h
      · left; exact h
      · right; exact List.mem_cons_of_mem _ h

theorem pyMaxBySnd_ge (x : Nat × ℚ) (xs : List (Nat × ℚ)) :
    ∀ y ∈ x :: xs, y.2 ≤ (pyMaxBySnd x xs).2 := by
  induction xs generalizing x with
  | nil =>
    intro y hy
    rcases List.mem_singleton.mp hy with rfl
    exact le_refl _
  | cons z zs ih =>
    intro y hy
    rw [pyMaxBySnd_cons]
    have hxle : x.2 ≤ (if z.2 > x.2 then z else x).2 := by
      by_cases hc : z.2 > x.2
      · rw [if_pos hc]; exact le_of_lt hc
      · rw [if_neg hc]
    have hzle : z.2 ≤ (if z.2 > x.2 then z else x).2 := by
      by_cases hc : z.2 > x.2
      · rw [if_pos hc]
      · rw [if_neg hc]; exact le_of_not_lt hc
    have hhead := ih (if z.2 > x.2 then z else x) _ (List.mem_cons_self _ _)
    rcases List.mem_cons.mp hy with rfl | hy2
    · exact le_trans hxle hhead
    · rcases List.mem_cons.mp hy2 with rfl | hy3
      · exact le_trans hzle hhead
      · exact ih _ _ (List.mem_cons_of_mem _ hy3)

theorem pyMax_argmax_map (g : Nat → ℚ) (c0 : Nat) (cs : List Nat) :
    (pyMaxBySnd (c0, g c0) (cs.map (fun c => (c, g c)))).1 ∈ c0 :: cs ∧
    ∀ c ∈ c0 :: cs, g c ≤ g (pyMaxBySnd (c0, g c0) (cs.map (fun c => (c, g c)))).1 := by
  have hmem : pyMaxBySnd (c0, g c0) (cs.map (fun c => (c, g c))) ∈
      (c0 :: cs).map (fun c => (c, g c)) := by
    rw [List.map_cons]
    rcases pyMaxBySnd_mem (c0, g c0) (cs.map (fun c => (c, g c))) with h | h
    · rw [h]; exact List.mem_cons_self _ _
    · exact List.mem_cons_of_mem _ h
  obtain ⟨cb, hcb, hcbeq⟩ := List.mem_map.mp hmem
  constructor
  · rw [← hcbeq]; exact hcb
  · intro c hc
    have h1 := pyMaxBySnd_ge (c0, g c0) (cs.map (fun c => (c, g c)))
      (c, g c) (by
        show (c, g c) ∈ (c0 :: cs).map (fun c => (c, g c))
        exact List.mem_map.mpr ⟨c, hc, rfl⟩)
    rw [← hcbeq] at h1 ⊢
    exact h1

theorem get_best_config_eq (target ideal : Nat) (w1 w2 w3 : ℚ) (c0 : Nat) (s0 : ChunkStats)
    (rest : List (Nat × ChunkStats)) :
    _get_best_config target ideal w1 w2 w3 ((c0, s0) :: rest) =
      some (pyMaxBySnd (c0, _score_config target ideal w1 w2 w3 s0)
        (rest.map (fun pr => (pr.1, _score_config target ideal w1 w2 w3 pr.2)))).1 := rfl

theorem analyse_chunks_eq (target ideal : Nat) (w1 w2 w3 : ℚ)
    (chunk_by_title : Nat → List String) (cands : List Nat)
    (results : List (Nat × ChunkStats)) (best : Nat)
    (ht : _test_chunk_configs chunk_by_title cands = some results)
    (hb : _get_best_config target ideal w1 w2 w3 results = some best) :
    analyse_chunks target ideal w1 w2 w3 chunk_by_title cands =
      some { max_characters := best, combine_under_chars := best, overlap := best / 2 } := by
  simp only [analyse_chunks, ht, hb]

theorem test_chunk_configs_total (chunk_by_title : Nat → List String) (cands : List Nat)
    (hok : ∀ c ∈ cands, computeStats ((chunk_by_title c).map String.length) =
      some (statsOf chunk_by_title c)) :
    _test_chunk_configs chunk_by_title cands =
      some (cands.map (fun c => (c, statsOf chunk_by_title c))) := by
  induction cands with
  | nil => rfl
  | cons c cs ih =>
    rw [_test_chunk_configs, hok c (List.mem_cons_self _ _),
      ih (fun d hd => hok d (List.mem_cons_of_mem _ hd)), List.map_cons]

/-- C3 (amended): for every candidate list in which each candidate yields at
least one chunk and not every chunk of a candidate is empty, the optimizer
scores each candidate by the specification's formula at the default
parameters, selects a candidate of maximal score and returns the
configuration {max_characters = C, combine_under_chars = C, overlap = C/2};
the embedding is a pure function, so identical inputs give the identical
winner. -/
theorem optimizer_selects_argmax (chunk_by_title : Nat → List String)
    (cands : List Nat) (hne : cands ≠ [])
    (hok : ∀ c ∈ cands, chunk_by_title c ≠ [] ∧
      maxOf ((chunk_by_title c).map String.length) ≠ 0) :
    ∃ best : Nat,
      analyse_chunks 2000 8 (3/10) (4/10) (3/10) chunk_by_title cands =
        some { max_characters := best, combine_under_chars := best, overlap := best / 2 } ∧
      best ∈ cands ∧
      ∀ c ∈ cands,
        specScore (statsOf chunk_by_title c) ≤ specScore (statsOf chunk_by_title best) := by
  have hstats : ∀ c ∈ cands, computeStats ((chunk_by_title c).map String.length) =
      some (statsOf chunk_by_title c) := by
    intro c hc
    rcases hok c hc with ⟨hne2, hmax⟩
    rw [statsOf, computeStats]
    rw [if_neg (by simpa [List.isEmpty_iff] using hne2), if_neg hmax]
    rfl
  have htest := test_chunk_configs_total chunk_by_title cands hstats
  have hscore : ∀ c ∈ cands,
      _score_config 2000 8 (3/10) (4/10) (3/10) (statsOf chunk_by_title c) =
        specScore (statsOf chunk_by_title c) := by
    intro c hc
    exact score_config_eq_specScore _ (computeStats_ratio (hstats c hc))
  obtain ⟨c0, cs, rfl⟩ : ∃ c0 cs, cands = c0 :: cs := by
    cases cands with
    | nil => exact absurd rfl hne
    | cons a l => exact ⟨a, l, rfl⟩
  have hbest : _get_best_config 2000 8 (3/10) (4/10) (3/10)
      ((c0 :: cs).map (fun c => (c, statsOf chunk_by_title c))) =
      some (pyMaxBySnd
        (c0, _score_config 2000 8 (3/10) (4/10) (3/10) (statsOf chunk_by_title c0))
        (cs.map (fun c =>
          (c, _score_config 2000 8 (3/10) (4/10) (3/10) (statsOf chunk_by_title c))))).1 := by
    rw [List.map_cons, get_best_config_eq, List.map_map]
    rfl
  obtain ⟨hmem, hge⟩ := pyMax_argmax_map
    (fun c => _score_config 2000 8 (3/10) (4/10) (3/10) (statsOf chunk_by_title c)) c0 cs
  exact ⟨_, analyse_chunks_eq 2000 8 (3/10) (4/10) (3/10) chunk_by_title (c0 :: cs) _ _
      htest hbest, hmem,
    fun c hc => by rw [← hscore c hc, ← hscore _ hmem]; exact hge c hc⟩

/-- Witness for `optimizer_selects_argmax` at a concrete input. -/
theorem optimizer_selects_argmax_witness :
    (([2400, 3200] : List Nat) ≠ [] ∧
      ∀ c ∈ ([2400, 3200] : List Nat),
        (fun k => if k = 2400 then ["ab", "cdef"] else ["xyz"]) c ≠ [] ∧
        maxOf (((fun k => if k = 2400 then ["ab", "cdef"] else ["xyz"]) c).map String.length) ≠ 0) ∧
    ∃ best : Nat,
      analyse_chunks 2000 8 (3/10) (4/10) (3/10)
          (fun k => if k = 2400 then ["ab", "cdef"] else ["xyz"]) [2400, 3200] =
        some { max_characters := best, combine_under_chars := best, overlap := best / 2 } ∧
      best ∈ ([2400, 3200] : List Nat) ∧
      ∀ c ∈ ([2400, 3200] : List Nat),
        specScore (statsOf (fun k => if k = 2400 then ["ab", "cdef"] else ["xyz"]) c) ≤
          specScore (statsOf (fun k => if k = 2400 then ["ab", "cdef"] else ["xyz"]) best) :=
  ⟨⟨by decide, by decide⟩,
    optimizer_selects_argmax (fun k => if k = 2400 then ["ab", "cdef"] else ["xyz"])
      [2400, 3200] (by decide) (by decide)⟩

/-- C3 (counterexample): a candidate list in which the only candidate yields
exactly one chunk — the empty string — makes `min(...)/max(...)` divide zero
by zero, so the analysis raises instead of returning the claimed winning
configuration. -/
theorem optimizer_empty_chunk_counterexample :
    ((fun _ : Nat => [""]) 100).length = 1 ∧
    analyse_chunks 2000 8 (3/10) (4/10) (3/10) (fun _ => [""]) [100] = none :=
  ⟨rfl, rfl⟩

/-- C4: a candidate producing zero chunks is not excluded from scoring;
`statistics.mean([])` (and `min`/`max` of an empty list) raises, so the whole
analysis fails instead of completing with the remaining candidates.  The spec
requires the candidate to be excluded; the code is the slip.  Here the first
candidate (1000) yields zero chunks while the second (2000) yields one
nonempty chunk, yet no configuration is produced at all. -/
theorem zero_chunk_candidate_raises :
    _test_chunk_configs (fun k => if k = 1000 then [] else ["hello world"]) [1000, 2000] = none ∧
    analyse_chunks 2000 8 (3/10) (4/10) (3/10)
      (fun k => if k = 1000 then [] else ["hello world"]) [1000, 2000] = none :=
  ⟨rfl, rfl⟩

/-! ## Marker-delimited section parsing (src/utils/text_processing/chunk_refiner.py)

String manipulation is modelled on the underlying character lists so that all
definitions evaluate by kernel reduction. -/

/-- The whitespace characters stripped by Python `str.strip()` (ASCII part). -/
def isPySpace (c : Char) : Bool :=
  c = ' ' || c = '\t' || c = '\n' || c = '\r' || c = '\x0b' || c = '\x0c'

def pyStripChars (l : List Char) : List Char :=
  ((l.dropWhile isPySpace).reverse.dropWhile isPySpace).reverse

/-- Python `str.strip()`. -/
def pyStrip (s : String) : String := ⟨pyStripChars s.data⟩

def splitLinesChars : List Char → List (List Char)
  | [] => [[]]
  | c :: cs =>
    if c = '\n' then [] :: splitLinesChars cs
    else
      match splitLinesChars cs with
      | [] => [[c]]
      | l :: ls => (c :: l) :: ls

/-- Python `str.split('\n')`. -/
def pySplitLines (s : String) : List String :=
  (splitLinesChars s.data).map (fun l => ⟨l⟩)

/-- Python `'\n'.join(...)`. -/
def joinLines : List String → String
  | [] => ""
  | [s] => s
  | s :: rest => s ++ "\n" ++ joinLines rest

/-- One loop iteration of `ChunkRefiner.parse_sections`: the state is the
pair (sections emitted so far, current accumulator).  Note that the source
does not clear `current_section` when an end marker emits it. -/
def parseStep (st : List String × List String) (line : String) :
    List String × List String :=
  if pyStrip line = "[SECTION_START]" then (st.1, [])
  else if pyStrip line = "[SECTION_END]" then
    (if st.2.isEmpty then st.1 else st.1 ++ [pyStrip (joinLines st.2)], st.2)
  else (st.1, st.2 ++ [line])

/-- Embeds `ChunkRefiner.parse_sections` (src/utils/text_processing/chunk_refiner.py,
lines 131-145). -/
def parse_sections (refined_text : String) : List String :=
  ((pySplitLines refined_text).foldl parseStep ([], [])).1

/-- Modelled from the spec: the two-state scanner (OUTSIDE / INSIDE_SECTION)
the claim describes.  The second state component is `none` while OUTSIDE and
`some acc` while INSIDE_SECTION; content seen while OUTSIDE is dropped, an
end marker emits the accumulated section and returns to OUTSIDE, and
accumulation left unterminated at end-of-input is dropped. -/
def twoStateStep (st : List String × Option (List String)) (line : String) :
    List String × Option (List String) :=
  if pyStrip line = "[SECTION_START]" then (st.1, some [])
  else if pyStrip line = "[SECTION_END]" then
    match st.2 with
    | some acc => (st.1 ++ [pyStrip (joinLines acc)], none)
    | none => (st.1, none)
  else
    match st.2 with
    | some acc => (st.1, some (acc ++ [line]))
    | none => (st.1, none)

def parse_sections_twoState (refined_text : String) : List String :=
  ((pySplitLines refined_text).foldl twoStateStep ([], none)).1

/-- The amended description of `parse_sections`: a linear scan with one
accumulator and no OUTSIDE state.  A start-marker line resets the
accumulator; an end-marker line emits the stripped join of the accumulator
when it is nonempty and leaves the accumulator in place; every other line is
appended; accumulation left at end-of-input is dropped. -/
def amendedScan : List String → List String → List String
  | _, [] => []
  | acc, line :: rest =>
    if pyStrip line = "[SECTION_START]" then amendedScan [] rest
    else if pyStrip line = "[SECTION_END]" then
      (if acc.isEmpty then [] else [pyStrip (joinLines acc)]) ++ amendedScan acc rest
    else amendedScan (acc ++ [line]) rest

def parse_sections_amended (refined_text : String) : List String :=
  amendedScan [] (pySplitLines refined_text)

theorem foldl_parseStep_eq_amendedScan (lines : List String) :
    ∀ secs acc, (lines.foldl parseStep (secs, acc)).1 = secs ++ amendedScan acc lines := by
  induction lines with
  | nil => intro secs acc; simp [amendedScan]
  | cons line rest ih =>
    intro secs acc
    rw [List.foldl_cons]
    by_cases h1 : pyStrip line = "[SECTION_START]"
    · simp only [parseStep, amendedScan, if_pos h1]
      exact ih secs []
    · by_cases h2 : pyStrip line = "[SECTION_END]"
      · simp only [parseStep, amendedScan, if_neg h1, if_pos h2]
        by_cases h3 : acc.isEmpty
        · simp only [if_pos h3, List.nil_append]
          exact ih secs acc
        · simp only [if_neg h3]
          rw [ih (secs ++ [pyStrip (joinLines acc)]) acc, List.append_assoc]
      · simp only [parseStep, amendedScan, if_neg h1, if_neg h2]
        exact ih secs (acc ++ [line])

/-- C5 (counterexample): in the input
"hello\n[SECTION_END]\n[SECTION_START]\nworld here\n[SECTION_END]" the
content "hello" appears before the first start marker, yet `parse_sections`
emits it as a section (the first end marker emits the accumulator even though
no start marker opened it), while the claimed two-state scan drops it.  The
parser is therefore not the claimed two-state machine, and content before the
first start marker can appear in an emitted section. -/
theorem parse_sections_not_two_state :
    parse_sections "hello\n[SECTION_END]\n[SECTION_START]\nworld here\n[SECTION_END]" =
      ["hello", "world here"] ∧
    parse_sections_twoState
      "hello\n[SECTION_END]\n[SECTION_START]\nworld here\n[SECTION_END]" =
      ["world here"] := ⟨rfl, rfl⟩

/-- C5 (amended): the section parser is a linear scan with a single
accumulator: a start marker resets the accumulator, an end marker closes and
emits the stripped accumulated section when nonempty (without clearing the
accumulator), all other lines accumulate, and accumulation left unterminated
at end-of-input is dropped.  Content before the first start marker or between
an end marker and the next start marker is therefore dropped only when a
start marker intervenes before the next end marker; otherwise a later end
marker emits it. -/
theorem parse_sections_is_single_accumulator_scan (refined_text : String) :
    parse_sections refined_text = parse_sections_amended refined_text := by
  rw [parse_sections, parse_sections_amended]
  exact foldl_parseStep_eq_amendedScan (pySplitLines refined_text) [] []

/-! Support for C10: a line that contains a marker together with any
non-whitespace text does not strip to a bare marker. -/

theorem filter_reverse_eq (p : Char → Bool) (l : List Char) :
    List.filter p l.reverse = (List.filter p l).reverse := by
  induction l with
  | nil => rfl
  | cons c cs ih =>
    by_cases h : p c <;>
      simp [List.reverse_cons, List.filter_append, List.filter_cons, h, ih]

theorem filter_dropWhile_nws (l : List Char) :
    List.filter (fun c => !isPySpace c) (l.dropWhile isPySpace) =
      List.filter (fun c => !isPySpace c) l := by
  induction l with
  | nil => rfl
  | cons c cs ih =>
    by_cases h : isPySpace c <;>
      simp [List.dropWhile_cons, List.filter_cons, h, ih]

theorem filter_pyStripChars (l : List Char) :
    List.filter (fun c => !isPySpace c) (pyStripChars l) =
      List.filter (fun c => !isPySpace c) l := by
  rw [pyStripChars, filter_reverse_eq, filter_dropWhile_nws, filter_reverse_eq,
    List.reverse_reverse, filter_dropWhile_nws]

theorem strip_append_marker (pre post m tgt : List Char)
    (hm_nws : List.filter (fun c => !isPySpace c) m = m)
    (htgt_nws : List.filter (fun c => !isPySpace c) tgt = tgt)
    (hx : ∃ c ∈ pre ++ post, isPySpace c = false)
    (heq : pyStripChars (pre ++ m ++ post) = tgt) :
    ∃ a b : List Char, tgt = a ++ m ++ b ∧ (a ≠ [] ∨ b ≠ []) := by
  refine ⟨pre.filter (fun c => !isPySpace c), post.filter (fun c => !isPySpace c), ?_, ?_⟩
  · have h1 := filter_pyStripChars (pre ++ m ++ post)
    rw [heq, htgt_nws, List.filter_append, List.filter_append, hm_nws] at h1
    exact h1
  · obtain ⟨c, hc, hcs⟩ := hx
    rcases List.mem_append.mp hc with h | h
    · left
      intro hnil
      have hmem : c ∈ pre.filter (fun c => !isPySpace c) :=
        List.mem_filter.mpr ⟨h, by rw [hcs]; rfl⟩
      rw [hnil] at hmem
      exact absurd hmem (List.not_mem_nil c)
    · right
      intro hnil
      have hmem : c ∈ post.filter (fun c => !isPySpace c) :=
        List.mem_filter.mpr ⟨h, by rw [hcs]; rfl⟩
      rw [hnil] at hmem
      exact absurd hmem (List.not_mem_nil c)

theorem marker_in_itself_false (m a b : List Char) (h : m = a ++ m ++ b)
    (hne : a ≠ [] ∨ b ≠ []) : False := by
  have hl := congrArg List.length h
  rw [List.length_append, List.length_append] at hl
  have ha : a.length = 0 := by omega
  have hb : b.length = 0 := by omega
  rcases hne with h1 | h1
  · exact h1 (List.length_eq_zero.mp ha)
  · exact h1 (List.length_eq_zero.mp hb)

theorem start_in_end_false (a b : List Char)
    (h : "[SECTION_END]".data = a ++ "[SECTION_START]".data ++ b) : False := by
  have hl := congrArg List.length h
  rw [List.length_append, List.length_append] at hl
  have h13 : ("[SECTION_END]".data).length = 13 := rfl
  have h15 : ("[SECTION_START]".data).length = 15 := rfl
  rw [h13, h15] at hl
  omega

theorem end_in_start_false (a b : List Char)
    (h : "[SECTION_START]".data = a ++ "[SECTION_END]".data ++ b)
    (hne : a ≠ [] ∨ b ≠ []) : False := by
  have hl := congrArg List.length h
  rw [List.length_append, List.length_append] at hl
  have h13 : ("[SECTION_END]".data).length = 13 := rfl
  have h15 : ("[SECTION_START]".data).length = 15 := rfl
  rw [h13, h15] at hl
  have hk : a.length = 0 ∨ a.length = 1 ∨ a.length = 2 := by omega
  have hEND : "[SECTION_END]".data = ("[SECTION_START]".data.drop a.length).take 13 := by
    conv_rhs => rw [h, List.append_assoc]
    rw [List.drop_left]
    rw [show (13 : Nat) = ("[SECTION_END]".data).length from rfl, List.take_left]
  rcases hk with h0 | h0 | h0 <;> rw [h0] at hEND <;> exact absurd hEND (by decide)

/-- C10: `parse_sections` recognizes `[SECTION_START]` / `[SECTION_END]` only
when the marker is the whole line up to surrounding whitespace.  A line that
contains a marker together with any other (non-whitespace) text is treated as
ordinary accumulated content by the scan step: it neither opens nor closes a
section. -/
theorem marker_with_text_is_content (secs acc : List String) (pre post m : List Char)
    (hm : m = "[SECTION_START]".data ∨ m = "[SECTION_END]".data)
    (hx : ∃ c ∈ pre ++ post, isPySpace c = false) :
    parseStep (secs, acc) ⟨pre ++ m ++ post⟩ = (secs, acc ++ [⟨pre ++ m ++ post⟩]) := by
  have hm_nws : List.filter (fun c => !isPySpace c) m = m := by
    rcases hm with rfl | rfl <;> decide
  have hne_start : pyStrip ⟨pre ++ m ++ post⟩ ≠ "[SECTION_START]" := by
    intro hcontra
    have hchars : pyStripChars (pre ++ m ++ post) = "[SECTION_START]".data :=
      congrArg String.data hcontra
    obtain ⟨a, b, habs, hab⟩ :=
      strip_append_marker pre post m _ hm_nws (by decide) hx hchars
    rcases hm with rfl | rfl
    · exact marker_in_itself_false _ a b habs hab
    · exact end_in_start_false a b habs hab
  have hne_end : pyStrip ⟨pre ++ m ++ post⟩ ≠ "[SECTION_END]" := by
    intro hcontra
    have hchars : pyStripChars (pre ++ m ++ post) = "[SECTION_END]".data :=
      congrArg String.data hcontra
    obtain ⟨a, b, habs, hab⟩ :=
      strip_append_marker pre post m _ hm_nws (by decide) hx hchars
    rcases hm with rfl | rfl
    · exact start_in_end_false a b habs
    · exact marker_in_itself_false _ a b habs hab
  rw [parseStep, if_neg hne_start, if_neg hne_end]

/-- Witness for `marker_with_text_is_content` at a concrete input: the line
"x [SECTION_START]" is accumulated as content. -/
theorem marker_with_text_is_content_witness :
    ("[SECTION_START]".data = "[SECTION_START]".data ∨
      "[SECTION_START]".data = "[SECTION_END]".data) ∧
    (∃ c ∈ "x ".data ++ ([] : List Char), isPySpace c = false) ∧
    parseStep ([], []) ⟨"x ".data ++ "[SECTION_START]".data ++ ([] : List Char)⟩ =
      ([], [⟨"x ".data ++ "[SECTION_START]".data ++ ([] : List Char)⟩]) :=
  ⟨Or.inl rfl, ⟨'x', by decide, by decide⟩,
    marker_with_text_is_content [] [] "x ".data ([] : List Char) "[SECTION_START]".data
      (Or.inl rfl) ⟨'x', by decide, by decide⟩⟩

/-! ## Section refinement engine (src/utils/text_processing/chunk_refiner.py)

The tiktoken tokenizer and the LLM chain are external services:
`count_tokens` is the token counter, and the outcome of the `chain.run` call
on attempt `k` is `run k : Option String` (`none` models a raised
exception).  The Excel logging side channel has no bearing on the returned
sections and is not modelled. -/

structure SectionRec where
  section_id : String
  content : String
  token_count : Nat
deriving DecidableEq, Repr

/-- The f-string
`f"{project_name}-{refined_filename_suffix}-chunk{chunk_index}-section{section_index}"`. -/
def sectionId (project_name refined_filename_suffix : String)
    (chunk_index section_index : Nat) : String :=
  project_name ++ "-" ++ refined_filename_suffix ++ "-chunk" ++ toString chunk_index ++
    "-section" ++ toString section_index

/-- The validation loop inside `ChunkRefiner.refine_chunk`
(`for section_index, section in enumerate(sections, 1)`): a parsed section is
kept only when its token count is strictly greater than
`min_tokens_per_section`. -/
def buildSections (count_tokens : String → Nat) (min_tokens_per_section : Nat)
    (project_name refined_filename_suffix : String) (chunk_index : Nat) :
    Nat → List String → List SectionRec
  | _, [] => []
  | section_index, s :: rest =>
    (if count_tokens s > min_tokens_per_section then
      [{ section_id := sectionId project_name refined_filename_suffix chunk_index section_index
         content := s
         token_count := count_tokens s }]
    else []) ++
    buildSections count_tokens min_tokens_per_section project_name refined_filename_suffix
      chunk_index (section_index + 1) rest

/-- All candidate section records of a chunk, before the token-floor check
(used to state which sections the floor drops). -/
def allSectionRecords (count_tokens : String → Nat)
    (project_name refined_filename_suffix : String) (chunk_index : Nat) :
    Nat → List String → List SectionRec
  | _, [] => []
  | section_index, s :: rest =>
    { section_id := sectionId project_name refined_filename_suffix chunk_index section_index
      content := s
      token_count := count_tokens s } ::
    allSectionRecords count_tokens project_name refined_filename_suffix chunk_index
      (section_index + 1) rest

/-- The retry loop of `ChunkRefiner.refine_chunk`
(`for attempt in range(self.max_retries)`), by recursion on the remaining
attempts.  Returns the refined sections together with the number of
refinement calls made. -/
def refineAttempts (count_tokens : String → Nat) (min_tokens_per_section : Nat)
    (project_name refined_filename_suffix : String) (chunk_index : Nat)
    (run : Nat → Option String) : Nat → Nat → List SectionRec × Nat
  | _, 0 => ([], 0)
  | attempt, remaining + 1 =>
    match run attempt with
    | some refined =>
      (buildSections count_tokens min_tokens_per_section project_name
        refined_filename_suffix chunk_index 1 (parse_sections (pyStrip refined)), 1)
    | none =>
      let r := refineAttempts count_tokens min_tokens_per_section project_name
        refined_filename_suffix chunk_index run (attempt + 1) remaining
      (r.1, r.2 + 1)

/-- Embeds `ChunkRefiner.refine_chunk`: on a successful call the response is
stripped, parsed into sections and validated against the token floor; on an
exception the same chunk is retried, and after `max_retries` failed attempts
the chunk is skipped, returning the empty section list without raising. -/
def refine_chunk (count_tokens : String → Nat) (min_tokens_per_section max_retries : Nat)
    (run : Nat → Option String) (project_name refined_filename_suffix : String)
    (chunk_index : Nat) : List SectionRec × Nat :=
  refineAttempts count_tokens min_tokens_per_section project_name refined_filename_suffix
    chunk_index run 0 max_retries

/-- The chunk loop of `ChunkRefiner.refine_chunks_and_save`
(`for chunk_index, chunk in enumerate(chunks, 1)`): each chunk's accepted
sections are persisted as `(section_id, content)` files; the external
refinement call for chunk `i` with text `c` on attempt `k` is
`chain_run i c k`. -/
def saveLoop (count_tokens : String → Nat) (min_tokens_per_section max_retries : Nat)
    (chain_run : Nat → String → Nat → Option String)
    (project_name refined_filename_suffix : String) :
    Nat → List String → List (String × String)
  | _, [] => []
  | chunk_index, chunk :: rest =>
    ((refine_chunk count_tokens min_tokens_per_section max_retries
        (chain_run chunk_index chunk) project_name refined_filename_suffix chunk_index).1).map
      (fun s => (s.section_id, s.content)) ++
    saveLoop count_tokens min_tokens_per_section max_retries chain_run project_name
      refined_filename_suffix (chunk_index + 1) rest

/-- Embeds `ChunkRefiner.refine_chunks_and_save` after the registry-derived filename
suffix has been resolved: the section files persisted for one document. -/
def refine_chunks_and_save (count_tokens : String → Nat)
    (min_tokens_per_section max_retries : Nat)
    (chain_run : Nat → String → Nat → Option String)
    (project_name refined_filename_suffix : String) (chunks : List String) :
    List (String × String) :=
  saveLoop count_tokens min_tokens_per_section max_retries chain_run project_name
    refined_filename_suffix 1 chunks

theorem buildSections_floor (count_tokens : String → Nat) (mt : Nat) (p sfx : String)
    (ci : Nat) : ∀ (si : Nat) (secs : List String),
    ∀ r ∈ buildSections count_tokens mt p sfx ci si secs,
      mt < r.token_count ∧ r.token_count = count_tokens r.content := by
  intro si secs
  induction secs generalizing si with
  | nil => intro r hr; exact absurd hr (List.not_mem_nil r)
  | cons s rest ih =>
    intro r hr
    rw [buildSections] at hr
    rcases List.mem_append.mp hr with h | h
    · by_cases hc : count_tokens s > mt
      · rw [if_pos hc] at h
        rcases List.mem_singleton.mp h with rfl
        exact ⟨hc, rfl⟩
      · rw [if_neg hc] at h
        exact absurd h (List.not_mem_nil r)
    · exact ih (si + 1) r h

theorem buildSections_eq_filter (count_tokens : String → Nat) (mt : Nat) (p sfx : String)
    (ci : Nat) : ∀ (si : Nat) (secs : List String),
    buildSections count_tokens mt p sfx ci si secs =
      (allSectionRecords count_tokens p sfx ci si secs).filter
        (fun r => decide (mt < r.token_count)) := by
  intro si secs
  induction secs generalizing si with
  | nil => rfl
  | cons s rest ih =>
    rw [buildSections, allSectionRecords, List.filter_cons]
    by_cases hc : count_tokens s > mt
    · rw [if_pos hc, if_pos (by simpa using hc), ih (si + 1)]
      rfl
    · rw [if_neg hc, if_neg (by simpa using hc), ih (si + 1)]
      rfl

theorem refineAttempts_floor (count_tokens : String → Nat) (mt : Nat) (p sfx : String)
    (ci : Nat) (run : Nat → Option String) : ∀ (rem attempt : Nat),
    ∀ r ∈ (refineAttempts count_tokens mt p sfx ci run attempt rem).1,
      mt < r.token_count ∧ r.token_count = count_tokens r.content := by
  intro rem
  induction rem with
  | zero => intro attempt r hr; exact absurd hr (List.not_mem_nil r)
  | succ m ih =>
    intro attempt r hr
    rw [refineAttempts] at hr
    cases hrun : run attempt with
    | some refined =>
      rw [hrun] at hr
      exact buildSections_floor count_tokens mt p sfx ci 1 _ r hr
    | none =>
      rw [hrun] at hr
      exact ih (attempt + 1) r hr

theorem refineAttempts_all_fail (count_tokens : String → Nat) (mt : Nat) (p sfx : String)
    (ci : Nat) (run : Nat → Option String) (hfail : ∀ k, run k = none) :
    ∀ (rem attempt : Nat),
    refineAttempts count_tokens mt p sfx ci run attempt rem = ([], rem) := by
  intro rem
  induction rem with
  | zero => intro attempt; rfl
  | succ m ih =>
    intro attempt
    rw [refineAttempts, hfail attempt]
    rw [ih (attempt + 1)]

theorem saveLoop_mem (count_tokens : String → Nat) (mt mr : Nat)
    (chain_run : Nat → String → Nat → Option String) (p sfx : String) :
    ∀ (chunks : List String) (idx i : Nat) (hi : i < chunks.length) (r : SectionRec),
      r ∈ (refine_chunk count_tokens mt mr (chain_run (idx + i) (chunks.get ⟨i, hi⟩))
        p sfx (idx + i)).1 →
      (r.section_id, r.content) ∈ saveLoop count_tokens mt mr chain_run p sfx idx chunks := by
  intro chunks
  induction chunks with
  | nil => intro idx i hi; exact absurd hi (by simp)
  | cons c rest ih =>
    intro idx i hi r hr
    rw [saveLoop]
    cases i with
    | zero =>
      apply List.mem_append_left
      exact List.mem_map.mpr ⟨r, by simpa using hr, rfl⟩
    | succ j =>
      apply List.mem_append_right
      have hadd : idx + (j + 1) = (idx + 1) + j := by omega
      rw [hadd] at hr
      exact ih (idx + 1) j (by simpa using Nat.lt_of_succ_lt_succ hi) r hr

theorem saveLoop_floor (count_tokens : String → Nat) (mt mr : Nat)
    (chain_run : Nat → String → Nat → Option String) (p sfx : String) :
    ∀ (chunks : List String) (idx : Nat),
    ∀ pr ∈ saveLoop count_tokens mt mr chain_run p sfx idx chunks,
      mt < count_tokens pr.2 := by
  intro chunks
  induction chunks with
  | nil => intro idx pr hpr; exact absurd hpr (List.not_mem_nil pr)
  | cons c rest ih =>
    intro idx pr hpr
    rw [saveLoop] at hpr
    rcases List.mem_append.mp hpr with h | h
    · obtain ⟨r, hr, hpr_eq⟩ := List.mem_map.mp h
      obtain ⟨hfloor, htc⟩ := refineAttempts_floor count_tokens mt p sfx idx
        (chain_run idx c) mr 0 r hr
      rw [← hpr_eq]
      rw [htc] at hfloor
      exact hfloor
    · exact ih (idx + 1) pr h

/-- C6: section floor invariant.  (i) Every section accepted into
`refine_chunk`'s result has a token count strictly greater than
`min_tokens_per_section`; (ii) on a successful refinement call, the result is
exactly the list of parsed sections filtered by the floor — a section at or
below the floor is silently discarded and only such sections are dropped;
(iii) every file persisted by `refine_chunks_and_save` has content whose
token count is above the floor. -/
theorem section_floor_invariant (count_tokens : String → Nat)
    (min_tokens_per_section max_retries : Nat) (run : Nat → Option String)
    (chain_run : Nat → String → Nat → Option String)
    (project_name refined_filename_suffix : String) (chunk_index : Nat)
    (refined : String) (chunks : List String) :
    (∀ r ∈ (refine_chunk count_tokens min_tokens_per_section max_retries run
        project_name refined_filename_suffix chunk_index).1,
      min_tokens_per_section < r.token_count) ∧
    (run 0 = some refined → 0 < max_retries →
      (refine_chunk count_tokens min_tokens_per_section max_retries run
          project_name refined_filename_suffix chunk_index).1 =
        (allSectionRecords count_tokens project_name refined_filename_suffix chunk_index 1
            (parse_sections (pyStrip refined))).filter
          (fun r => decide (min_tokens_per_section < r.token_count))) ∧
    (∀ pr ∈ refine_chunks_and_save count_tokens min_tokens_per_section max_retries chain_run
        project_name refined_filename_suffix chunks,
      min_tokens_per_section < count_tokens pr.2) := by
  refine ⟨?_, ?_, ?_⟩
  · intro r hr
    exact (refineAttempts_floor count_tokens min_tokens_per_section project_name
      refined_filename_suffix chunk_index run max_retries 0 r hr).1
  · intro h0 hpos
    cases max_retries with
    | zero => exact absurd hpos (by omega)
    | succ m =>
      rw [refine_chunk, refineAttempts, h0]
      exact buildSections_eq_filter count_tokens min_tokens_per_section project_name
        refined_filename_suffix chunk_index 1 _
  · intro pr hpr
    exact saveLoop_floor count_tokens min_tokens_per_section max_retries chain_run
      project_name refined_filename_suffix chunks 1 pr hpr

/-- Witness for `section_floor_invariant`: a concrete successful refinement
whose single parsed section survives the floor. -/
theorem section_floor_invariant_witness :
    ((fun _ : Nat => some "[SECTION_START]\nhello\n[SECTION_END]") 0 =
      some "[SECTION_START]\nhello\n[SECTION_END]") ∧ 0 < 3 ∧
    (refine_chunk String.length 0 3
        (fun _ => some "[SECTION_START]\nhello\n[SECTION_END]") "proj" "sfx" 2).1 =
      (allSectionRecords String.length "proj" "sfx" 2 1
          (parse_sections (pyStrip "[SECTION_START]\nhello\n[SECTION_END]"))).filter
        (fun r => decide (0 < r.token_count)) :=
  ⟨rfl, by decide,
    (section_floor_invariant String.length 0 3
        (fun _ => some "[SECTION_START]\nhello\n[SECTION_END]") (fun _ _ _ => none)
        "proj" "sfx" 2 "[SECTION_START]\nhello\n[SECTION_END]" []).2.1 rfl (by decide)⟩

/-- C7: retry bound and batch resilience.  A chunk whose refinement call
fails on every attempt is attempted exactly `max_retries` times and then
skipped with an empty section list (the exception is swallowed, nothing is
raised); and independently of any chunk's failure, every other chunk's
accepted sections are persisted by `refine_chunks_and_save` — a chunk's
failure is never fatal at the document level. -/
theorem retry_bound_and_batch_resilience (count_tokens : String → Nat)
    (min_tokens_per_section max_retries : Nat) (run : Nat → Option String)
    (chain_run : Nat → String → Nat → Option String)
    (project_name refined_filename_suffix : String) (chunk_index : Nat)
    (chunks : List String) (hfail : ∀ k, run k = none) :
    refine_chunk count_tokens min_tokens_per_section max_retries run
      project_name refined_filename_suffix chunk_index = ([], max_retries) ∧
    (∀ (i : Nat) (hi : i < chunks.length) (r : SectionRec),
      r ∈ (refine_chunk count_tokens min_tokens_per_section max_retries
          (chain_run (1 + i) (chunks.get ⟨i, hi⟩)) project_name refined_filename_suffix
          (1 + i)).1 →
      (r.section_id, r.content) ∈ refine_chunks_and_save count_tokens min_tokens_per_section
        max_retries chain_run project_name refined_filename_suffix chunks) := by
  constructor
  · exact refineAttempts_all_fail count_tokens min_tokens_per_section project_name
      refined_filename_suffix chunk_index run hfail max_retries 0
  · intro i hi r hr
    exact saveLoop_mem count_tokens min_tokens_per_section max_retries chain_run
      project_name refined_filename_suffix chunks 1 i hi r hr

/-- Witness for `retry_bound_and_batch_resilience`: the first chunk always
fails and is attempted exactly 3 times; the second chunk still refines and
its section file is persisted. -/
theorem retry_bound_and_batch_resilience_witness :
    (∀ k : Nat, (fun _ : Nat => (none : Option String)) k = none) ∧
    refine_chunk String.length 0 3 (fun _ => none) "proj" "sfx" 1 = ([], 3) ∧
    refine_chunks_and_save String.length 0 3
        (fun i _ _ => if i = 2 then some "[SECTION_START]\nhello\n[SECTION_END]" else none)
        "proj" "sfx" ["a", "b"] =
      [(sectionId "proj" "sfx" 2 1, "hello")] :=
  ⟨fun _ => rfl,
    (retry_bound_and_batch_resilience String.length 0 3 (fun _ => none)
      (fun i _ _ => if i = 2 then some "[SECTION_START]\nhello\n[SECTION_END]" else none)
      "proj" "sfx" 1 ["a", "b"] (fun _ => rfl)).1,
    by decide⟩

/-! ## Citation-table construction (src/answer_generator_new.py)

The annotation loop of `AnswerGenerator.generate_answer`.  An annotation
carries its literal text span and, when it has a `file_citation`, the cited
file's filename (the `client.files.retrieve` call is external and already
resolved here); `none` models an annotation without a file citation. -/

structure Annot where
  text : String
  file_citation : Option String
deriving DecidableEq, Repr

def pyReplaceAux (old new : List Char) : Nat → List Char → List Char
  | _, [] => []
  | 0, s => s
  | fuel + 1, c :: cs =>
    if old.isPrefixOf (c :: cs) then
      new ++ pyReplaceAux old new fuel ((c :: cs).drop old.length)
    else c :: pyReplaceAux old new fuel cs

/-- Python `str.replace` for a nonempty pattern: replace every
non-overlapping occurrence, left to right. -/
def pyReplace (s old new : String) : String :=
  if old.data.isEmpty then s
  else ⟨pyReplaceAux old.data new.data s.data.length s.data⟩

structure CitationState where
  annotation_map : List (String × Nat)
  id : Nat
  citations : List String
  value : String
deriving DecidableEq, Repr

/-- Dict lookup `annotation_map[text]` (insertion-ordered dict). -/
def lookupText (m : List (String × Nat)) (t : String) : Option Nat :=
  (m.find? (fun pr => pr.1 == t)).map Prod.snd

/-- One iteration of the annotation loop in `generate_answer`
(src/answer_generator_new.py, lines 166-181): a first-seen literal span gets
the next id and — only when the annotation carries a file citation — a
`"[id] filename"` entry is appended to the citation list; then every
occurrence of the span in the message text is replaced by `"[id]"`. -/
def processAnnot (st : CitationState) (a : Annot) : CitationState :=
  let st1 :=
    match lookupText st.annotation_map a.text with
    | some _ => st
    | none =>
      { st with
        annotation_map := st.annotation_map ++ [(a.text, st.id)]
        id := st.id + 1
        citations :=
          match a.file_citation with
          | some filename => st.citations ++ ["[" ++ toString st.id ++ "] " ++ filename]
          | none => st.citations }
  { st1 with
    value := pyReplace st1.value a.text
      ("[" ++ toString ((lookupText st1.annotation_map a.text).getD 0) ++ "]") }

/-- The whole annotation-processing pass of `generate_answer` over the
assistant message: the final (annotation map, citations, rendered text). -/
def process_annotations (annots : List Annot) (value : String) : CitationState :=
  annots.foldl processAnnot
    { annotation_map := [], id := 0, citations := [], value := value }

theorem getD_append_left {α : Type} (l r : List α) (d : α) (k : Nat) (h : k < l.length) :
    (l ++ r).getD k d = l.getD k d := by
  induction l generalizing k with
  | nil => simp at h
  | cons c cl ih =>
    cases k with
    | zero => rfl
    | succ j => simpa using ih j (by simpa using Nat.lt_of_succ_lt_succ h)

theorem getD_append_self {α : Type} (l : List α) (x d : α) :
    (l ++ [x]).getD l.length d = x := by
  induction l with
  | nil => rfl
  | cons c cl ih => simpa using ih

theorem processAnnot_seen (st : CitationState) (a : Annot) (n : Nat)
    (hl : lookupText st.annotation_map a.text = some n) :
    (processAnnot st a).annotation_map = st.annotation_map ∧
    (processAnnot st a).id = st.id ∧
    (processAnnot st a).citations = st.citations := by
  simp [processAnnot, hl]

theorem processAnnot_new_some (st : CitationState) (a : Annot) (fn : String)
    (hl : lookupText st.annotation_map a.text = none)
    (hfn : a.file_citation = some fn) :
    (processAnnot st a).annotation_map = st.annotation_map ++ [(a.text, st.id)] ∧
    (processAnnot st a).id = st.id + 1 ∧
    (processAnnot st a).citations =
      st.citations ++ ["[" ++ toString st.id ++ "] " ++ fn] := by
  simp [processAnnot, hl, hfn]

/-- The invariant the loop maintains when every annotation carries a file
citation: the assigned indices are exactly `0 .. id-1` and the citation list
has exactly one entry per index, in order. -/
def citeInv (st : CitationState) : Prop :=
  st.annotation_map.map Prod.snd = List.range st.id ∧
  st.citations.length = st.id ∧
  ∀ k, k < st.citations.length →
    ∃ fn, st.citations.getD k "" = "[" ++ toString k ++ "] " ++ fn

theorem processAnnot_preserves_inv (st : CitationState) (a : Annot)
    (hfc : a.file_citation.isSome) (hinv : citeInv st) : citeInv (processAnnot st a) := by
  obtain ⟨h1, h2, h3⟩ := hinv
  obtain ⟨fn, hfn⟩ := Option.isSome_iff_exists.mp hfc
  cases hl : lookupText st.annotation_map a.text with
  | some n =>
    obtain ⟨e1, e2, e3⟩ := processAnnot_seen st a n hl
    exact ⟨by rw [e1, e2]; exact h1, by rw [e3, e2]; exact h2, by rw [e3]; exact h3⟩
  | none =>
    obtain ⟨e1, e2, e3⟩ := processAnnot_new_some st a fn hl hfn
    refine ⟨?_, ?_, ?_⟩
    · rw [e1, e2, List.map_append, h1, List.range_succ]
      rfl
    · rw [e3, e2, List.length_append, h2]
      rfl
    · intro k hk
      rw [e3]
      rw [e3, List.length_append] at hk
      by_cases hk2 : k < st.citations.length
      · obtain ⟨g, hg⟩ := h3 k hk2
        exact ⟨g, by rw [getD_append_left _ _ _ _ hk2]; exact hg⟩
      · have hkeq : k = st.citations.length := by
          simp only [List.length_singleton] at hk
          omega
        refine ⟨fn, ?_⟩
        rw [hkeq, getD_append_self, h2]

theorem foldl_processAnnot_inv (annots : List Annot)
    (hfc : ∀ a ∈ annots, a.file_citation.isSome) :
    ∀ st : CitationState, citeInv st → citeInv (annots.foldl processAnnot st) := by
  induction annots with
  | nil => intro st h; exact h
  | cons a rest ih =>
    intro st h
    rw [List.foldl_cons]
    exact ih (fun b hb => hfc b (List.mem_cons_of_mem _ hb)) _
      (processAnnot_preserves_inv st a (hfc a (List.mem_cons_self _ _)) h)

/-- C8 (amended): when every processed annotation carries a file citation,
the index markers substituted into the answer text (the values of the
annotation map, exactly `0 .. id-1`) are in one-to-one correspondence with
the citation entries: the citation list has exactly `id` entries and its
`k`-th entry is `"[k] filename"`.  An annotation without a file citation
still receives an index and a substitution but produces no citation entry
(see the counterexample), so the hypothesis is needed. -/
theorem citation_table_one_to_one (annots : List Annot) (value : String)
    (hfc : ∀ a ∈ annots, a.file_citation.isSome) :
    (process_annotations annots value).annotation_map.map Prod.snd =
      List.range (process_annotations annots value).id ∧
    (process_annotations annots value).citations.length =
      (process_annotations annots value).id ∧
    ∀ k, k < (process_annotations annots value).citations.length →
      ∃ fn, (process_annotations annots value).citations.getD k "" =
        "[" ++ toString k ++ "] " ++ fn := by
  have h := foldl_processAnnot_inv annots hfc
    { annotation_map := [], id := 0, citations := [], value := value }
    ⟨rfl, rfl, fun k hk => absurd hk (by simp)⟩
  exact h

/-- Witness for `citation_table_one_to_one`: two distinct spans, one of them
repeated, all carrying file citations. -/
theorem citation_table_one_to_one_witness :
    (∀ a ∈ [Annot.mk "spanA" (some "f1.txt"), Annot.mk "spanB" (some "f2.txt"),
        Annot.mk "spanA" (some "f1.txt")], a.file_citation.isSome) ∧
    ((process_annotations [Annot.mk "spanA" (some "f1.txt"), Annot.mk "spanB" (some "f2.txt"),
        Annot.mk "spanA" (some "f1.txt")] "spanA spanB spanA").annotation_map.map Prod.snd =
      List.range (process_annotations [Annot.mk "spanA" (some "f1.txt"),
        Annot.mk "spanB" (some "f2.txt"),
        Annot.mk "spanA" (some "f1.txt")] "spanA spanB spanA").id ∧
    (process_annotations [Annot.mk "spanA" (some "f1.txt"), Annot.mk "spanB" (some "f2.txt"),
        Annot.mk "spanA" (some "f1.txt")] "spanA spanB spanA").citations.length =
      (process_annotations [Annot.mk "spanA" (some "f1.txt"),
        Annot.mk "spanB" (some "f2.txt"),
        Annot.mk "spanA" (some "f1.txt")] "spanA spanB spanA").id ∧
    ∀ k, k < (process_annotations [Annot.mk "spanA" (some "f1.txt"),
        Annot.mk "spanB" (some "f2.txt"),
        Annot.mk "spanA" (some "f1.txt")] "spanA spanB spanA").citations.length →
      ∃ fn, (process_annotations [Annot.mk "spanA" (some "f1.txt"),
        Annot.mk "spanB" (some "f2.txt"),
        Annot.mk "spanA" (some "f1.txt")] "spanA spanB spanA").citations.getD k "" =
        "[" ++ toString k ++ "] " ++ fn) :=
  ⟨by decide,
    citation_table_one_to_one [Annot.mk "spanA" (some "f1.txt"),
      Annot.mk "spanB" (some "f2.txt"), Annot.mk "spanA" (some "f1.txt")]
      "spanA spanB spanA" (by decide)⟩

/-- C8 (counterexample): a single annotation whose span carries no file
citation.  The marker `[0]` is substituted into the returned answer text but
the citation list stays empty: the distinct indices appearing in the rendered
text do not correspond one-to-one to citation entries. -/
theorem citation_marker_without_entry :
    (process_annotations [Annot.mk "A" none] "A").value = "[0]" ∧
    (process_annotations [Annot.mk "A" none] "A").citations = [] := ⟨rfl, rfl⟩

/-! ## Citation dehashing (src/report_generator.py) -/

def takeDigits : List Char → List Char × List Char
  | [] => ([], [])
  | c :: cs =>
    if c.isDigit then (c :: (takeDigits cs).1, (takeDigits cs).2)
    else ([], c :: cs)

/-- The leftmost match of the group in `re.findall(r'(\[\d+\]).*', file)`:
the first maximal `[digits]` occurrence.  `none` models an empty match list
(in `dehash` that leaves `hash_file_name` unbound — an uncaught NameError). -/
def findCitationNumber : List Char → Option (List Char)
  | [] => none
  | c :: cs =>
    if c = '[' then
      if (takeDigits cs).1 ≠ [] ∧ (takeDigits cs).2.head? = some ']' then
        some ('[' :: ((takeDigits cs).1 ++ [']']))
      else findCitationNumber cs
    else findCitationNumber cs

def isAlnumAscii (c : Char) : Bool := c.isAlpha || c.isDigit

def splitAtFirstDash : List Char → Option (List Char × List Char)
  | [] => none
  | c :: cs =>
    if c = '-' then some ([], cs)
    else (splitAtFirstDash cs).map (fun pr => (c :: pr.1, pr.2))

/-- Attempt to match `{project}-([a-zA-Z0-9]{8})-(.*?)-(.*)` at the head of
`s`: the 8-character hash group, the lazy middle group (up to the first
following dash) and the greedy remainder. -/
def matchHashAt (project s : List Char) : Option (List Char × List Char × List Char) :=
  if (project ++ ['-']).isPrefixOf s then
    let rest := s.drop (project.length + 1)
    if (rest.take 8).length = 8 ∧ (rest.take 8).all isAlnumAscii = true ∧
        (rest.drop 8).head? = some '-' then
      (splitAtFirstDash (rest.drop 9)).map (fun pr => (rest.take 8, pr.1, pr.2))
    else none
  else none

/-- The leftmost match of
`re.findall(rf'{project_name}-([a-zA-Z0-9]{8})-(.*?)-(.*)', hash_file_name)`. -/
def findHashMatch (project : List Char) : List Char → Option (List Char × List Char × List Char)
  | [] => none
  | c :: cs =>
    match matchHashAt project (c :: cs) with
    | some r => some r
    | none => findHashMatch project cs

/-- Embeds `report_generator.retrieve` with `query_key = "hashed_doc_name"`: filter
`PartitionKey eq project and hashed_doc_name eq value`, first entity or the
empty dict (`none`). -/
def retrieve (t : Table) (project_name hash_value : String) : Option Entity :=
  (t.filter (fun e => e.partitionKey == project_name &&
    e.hashed_doc_name == hash_value)).head?

/-- Embeds `report_generator.dehash`.  `Except.error ()` is the uncaught NameError
when the string has no `[n]` citation number (`hash_file_name` stays
unbound); `Except.ok none` is Python's implicit `return None` when the hash
pattern does not match inside the `try`; otherwise a string is returned.  A
registry miss makes `h_d_map['doc_name']` raise KeyError on the empty dict,
which the bare `except` turns into returning the original `file` string. -/
def dehash (t : Table) (project_name : String) (file : String) :
    Except Unit (Option String) :=
  match findCitationNumber file.data with
  | none => Except.error ()
  | some citation_number =>
    let hash_file_name : List Char := file.data.drop (citation_number.length + 1)
    match findHashMatch project_name.data hash_file_name with
    | none => Except.ok none
    | some pr =>
      match retrieve t project_name ⟨pr.1⟩ with
      | none => Except.ok (some file)
      | some h_d_map =>
        Except.ok (some (⟨citation_number⟩ ++ " " ++ (project_name ++ "-" ++
          h_d_map.doc_name ++ "-" ++ (⟨pr.2.2⟩ : String))))

theorem takeDigits_append_rbracket (dsl : List Char)
    (hd : ∀ c ∈ dsl, c.isDigit = true) (rs : List Char) :
    takeDigits (dsl ++ (']' :: rs)) = (dsl, ']' :: rs) := by
  induction dsl with
  | nil => rw [List.nil_append, takeDigits, if_neg (by decide)]
  | cons d dtl ih =>
    rw [List.cons_append, takeDigits, if_pos (hd d (List.mem_cons_self _ _)),
      ih (fun c hc => hd c (List.mem_cons_of_mem _ hc))]

theorem drop_append_length_add {α : Type} (l r : List α) (k : Nat) :
    (l ++ r).drop (l.length + k) = r.drop k := by
  induction l with
  | nil => simp
  | cons c cl ih =>
    have h : (c :: cl).length + k = (cl.length + k) + 1 := by
      rw [List.length_cons]; omega
    rw [List.cons_append, h, List.drop_succ_cons]
    exact ih

/-- C9: dehash graceful degradation.  For a well-formed stable-id citation
string `"[n] ..."` whose embedded hash matches the filename pattern but has
no matching record in the registry (the reverse lookup returns nothing),
`dehash` returns the original citation string unchanged instead of failing
the report. -/
theorem dehash_lookup_failure_keeps_original (t : Table) (project : String)
    (dsl restl : List Char) (hds_ne : dsl ≠ [])
    (hds_dig : ∀ c ∈ dsl, c.isDigit = true)
    (pr : List Char × List Char × List Char)
    (hmatch : findHashMatch project.data restl = some pr)
    (hmiss : retrieve t project ⟨pr.1⟩ = none) :
    dehash t project ⟨'[' :: (dsl ++ (']' :: ' ' :: restl))⟩ =
      Except.ok (some ⟨'[' :: (dsl ++ (']' :: ' ' :: restl))⟩) := by
  have htake := takeDigits_append_rbracket dsl hds_dig (' ' :: restl)
  have hcit : findCitationNumber ('[' :: (dsl ++ (']' :: ' ' :: restl))) =
      some ('[' :: (dsl ++ [']'])) := by
    rw [findCitationNumber, if_pos rfl, htake]
    rw [if_pos ⟨hds_ne, rfl⟩]
  have hdrop : ('[' :: (dsl ++ (']' :: ' ' :: restl))).drop
      (('[' :: (dsl ++ [']'])).length + 1) = restl := by
    have h1 : ('[' :: (dsl ++ [']'])).length + 1 = (dsl.length + 2) + 1 := by
      rw [List.length_cons, List.length_append]
      rfl
    rw [h1, List.drop_succ_cons]
    have h2 : dsl.length + 2 = dsl.length + 2 := rfl
    have h3 : (dsl ++ (']' :: ' ' :: restl)).drop (dsl.length + 2) =
        (']' :: ' ' :: restl).drop 2 := drop_append_length_add dsl _ 2
    rw [h3]
    rfl
  rcases pr with ⟨h1, h2, h3⟩
  simp only [retrieve] at hmiss
  simp only [dehash, hcit, hdrop, hmatch, retrieve, hmiss]

/-- Witness for `dehash_lookup_failure_keeps_original`: an empty registry and
the citation `"[0] acme-abcd1234-ifu-chunk1-section1"`. -/
theorem dehash_lookup_failure_keeps_original_witness :
    ("0".data ≠ ([] : List Char)) ∧ (∀ c ∈ "0".data, c.isDigit = true) ∧
    findHashMatch "acme".data "acme-abcd1234-ifu-chunk1-section1".data =
      some ("abcd1234".data, "ifu".data, "chunk1-section1".data) ∧
    retrieve [] "acme" ⟨"abcd1234".data⟩ = none ∧
    dehash [] "acme"
        ⟨'[' :: ("0".data ++ (']' :: ' ' :: "acme-abcd1234-ifu-chunk1-section1".data))⟩ =
      Except.ok (some
        ⟨'[' :: ("0".data ++ (']' :: ' ' :: "acme-abcd1234-ifu-chunk1-section1".data))⟩) :=
  ⟨by decide, by decide, by decide, rfl,
    dehash_lookup_failure_keeps_original [] "acme" "0".data
      "acme-abcd1234-ifu-chunk1-section1".data (by decide) (by decide)
      ("abcd1234".data, "ifu".data, "chunk1-section1".data) (by decide) rfl⟩

end HsaDossier
